import Mathlib

/-!
Shallow embedding of the FinOps analysis core
(`sam-deploy/finops-backend/api/utils/analyze.py` and the pure analysis
helpers of `sam-deploy/finops-backend/api/app.py`) together with proofs
of the specified properties.

Python floats are modelled as rationals; Python `round(x, n)` is modelled
by rounding `x * 10^n` to the nearest integer (Mathlib `round`, which
rounds half up where Python rounds half to even — the two agree except at
exact ties, which no statement below touches).
-/

namespace FinOps

/-- Models Python `round(x, 2)`. -/
def round2 (q : ℚ) : ℚ := (round (q * 100) : ℤ) / 100

/-- Models Python `round(x, 1)`. -/
def round1 (q : ℚ) : ℚ := (round (q * 10) : ℤ) / 10

/-- Numeric value of a list of ASCII digit characters. -/
def digitsVal (cs : List Char) : ℕ :=
  cs.foldl (fun acc c => acc * 10 + (c.toNat - 48)) 0

/-- Models Python `float(s)` on a string, restricted to plain decimal
literals (optional sign, digits, optional fractional part); scientific
notation, infinities and surrounding whitespace are not modelled.
Returns `none` where Python `float` raises `ValueError`. -/
def parseDecimal (s : String) : Option ℚ :=
  let cs := s.toList
  let signAndRest : ℚ × List Char :=
    match cs with
    | '-' :: rest => (-1, rest)
    | '+' :: rest => (1, rest)
    | _ => (1, cs)
  let sign := signAndRest.1
  let body := signAndRest.2
  let intPart := body.takeWhile Char.isDigit
  let rest := body.dropWhile Char.isDigit
  match rest with
  | [] => if intPart.isEmpty then none else some (sign * (digitsVal intPart : ℚ))
  | '.' :: fracRest =>
    let fracPart := fracRest.takeWhile Char.isDigit
    let rest2 := fracRest.dropWhile Char.isDigit
    if rest2.isEmpty then
      if intPart.isEmpty ∧ fracPart.isEmpty then none
      else some (sign * ((digitsVal intPart : ℚ) +
        (digitsVal fracPart : ℚ) / (10 : ℚ) ^ fracPart.length))
    else none
  | _ => none

/-- One parsed CSV row: each field is `some s` when the column is present
(with string value `s`) and `none` when absent, mirroring `dict.get`.
Both schema variants' columns are carried. -/
structure Row where
  client : Option String := none
  name : Option String := none
  revenue : Option String := none
  cost : Option String := none
  licenses_used : Option String := none
  licenses_purchased : Option String := none
  Cost : Option String := none
  Service : Option String := none
  UsageType : Option String := none

/-- Models one attempt `float(r.get(k, 0) or 0)`: a missing key or empty
string yields `some 0`; a non-empty string parses or fails. -/
def parseField (v : Option String) : Option ℚ :=
  match v with
  | none => some 0
  | some s => if s = "" then some 0 else parseDecimal s

/-- Models `try: x = float(r.get(k, 0) or 0) except Exception: x = 0.0`
(one field per try-block, as for `revenue` and `cost` in
`analyze_csv_rows`, and as `_float` in `app.py`). -/
def coerceNum (v : Option String) : ℚ := (parseField v).getD 0

/-- Models the single try-block of `analyze_csv_rows` that coerces
`licenses_used` and then `licenses_purchased`: if either raises, the
`except` clause resets BOTH to `0.0`. -/
def licensePair (u p : Option String) : ℚ × ℚ :=
  match parseField u, parseField p with
  | some a, some b => (a, b)
  | _, _ => (0, 0)

/-- Models a truthiness test on an optional string: `None` and `""` are
falsy. -/
def truthyStr (v : Option String) : Option String :=
  match v with
  | none => none
  | some s => if s = "" then none else some s

/-- Models Python `str.strip()`: drops leading and trailing whitespace. -/
def pyStrip (s : String) : String :=
  String.mk (((s.toList.dropWhile Char.isWhitespace).reverse.dropWhile
    Char.isWhitespace).reverse)

/-- Models `(r.get("client") or r.get("name") or "Unknown").strip()`. -/
def clientOf (r : Row) : String :=
  pyStrip (((truthyStr r.client).or (truthyStr r.name)).getD "Unknown")

/-- The per-row insight record produced by `analyze_csv_rows`. -/
structure ClientInsight where
  client : String
  revenue : ℚ
  cost : ℚ
  margin : ℚ
  license_waste_pct : ℚ
  health : String
deriving DecidableEq

/-- The license-waste percentage of a row before its 1-decimal rounding,
exactly as computed by `analyze_csv_rows` lines 39-43. -/
def rawWaste (r : Row) : ℚ :=
  let lp := licensePair r.licenses_used r.licenses_purchased
  if 0 < lp.2 then max 0 ((lp.2 - lp.1) / lp.2 * 100) else 0

/-- The body of the `for r in rows` loop of `analyze_csv_rows`: the
insight appended for one row. -/
def insightOfRow (r : Row) : ClientInsight :=
  let revenue := coerceNum r.revenue
  let cost := coerceNum r.cost
  let margin := round2 (revenue - cost)
  let health :=
    if margin < 0 then "At Risk"
    else if 30 < rawWaste r then "Inefficient"
    else "Healthy"
  { client := clientOf r
    revenue := round2 revenue
    cost := round2 cost
    margin := margin
    license_waste_pct := round1 (rawWaste r)
    health := health }

/-- Embeds `analyze_csv_rows` of
`sam-deploy/finops-backend/api/utils/analyze.py`: one insight per row,
then a stable sort ascending by margin (Python `sorted` with
`key=lambda x: x["margin"]`). -/
def analyze_csv_rows (rows : List Row) : List ClientInsight :=
  (rows.map insightOfRow).mergeSort (fun a b => a.margin ≤ b.margin)

/-- Models Python `str.lower()` (as applied to CSV header names in
`_rows_from_text`). -/
def pyLower (s : String) : String := String.mk (s.toList.map Char.toLower)

/-- The analysis summary returned by `_analyze_text` in `app.py`. -/
structure AnalyzeResponse where
  total_revenue : ℚ
  total_cost : ℚ
  total_profit : ℚ
  client_insights : List ClientInsight
deriving DecidableEq

/-- Models `r.get("Service") or r.get("UsageType") or "Unknown"` in the
cost-only fallback path of `_analyze_text`. -/
def svcOf (r : Row) : String :=
  (((truthyStr r.Service).or (truthyStr r.UsageType)).getD "Unknown")

/-- Models `by_service[svc] = by_service.get(svc, 0.0) + v` on a Python
dict kept as an insertion-ordered association list: an existing key is
updated in place, a new key is appended. -/
def bump : List (String × ℚ) → String → ℚ → List (String × ℚ)
  | [], k, v => [(k, v)]
  | (k', v') :: rest, k, v =>
    if k' = k then (k', v' + v) :: rest else (k', v') :: bump rest k v

/-- The `for r in rows` accumulation loop building `by_service` in
`_analyze_text`. -/
def byServiceAux (d : List (String × ℚ)) : List Row → List (String × ℚ)
  | [] => d
  | r :: rest => byServiceAux (bump d (svcOf r) (coerceNum r.Cost)) rest

/-- The `by_service` grouping of the cost-only fallback path. -/
def byService (rows : List Row) : List (String × ℚ) :=
  byServiceAux [] rows

/-- The pseudo-client insights of the fallback path: groups sorted by
summed cost descending (`sorted(..., key=kv[1], reverse=True)`, a stable
sort), each rendered with margin 0, waste 0 and health "Unknown". -/
def fallbackInsights (rows : List Row) : List ClientInsight :=
  ((byService rows).mergeSort (fun a b => b.2 ≤ a.2)).map
    (fun kv =>
      { client := kv.1, revenue := round2 kv.2, cost := round2 kv.2
        margin := 0, license_waste_pct := 0, health := "Unknown" })

/-- Embeds `_analyze_text` of `app.py` from the point where rows and
(lower-cased) header names are available: an empty row list raises the
HTTP 400 "No rows found in CSV." error, modelled as `Except.error`; the
billing schema (both `revenue` and `cost` headers present) runs
`analyze_csv_rows`; otherwise the cost-only fallback runs. -/
def analyzeText (fieldnames : List String) (rows : List Row) :
    Except String AnalyzeResponse :=
  let fields := fieldnames.map pyLower
  if rows.isEmpty then .error "No rows found in CSV."
  else if "revenue" ∈ fields ∧ "cost" ∈ fields then
    let total_revenue := (rows.map (fun r => coerceNum r.revenue)).sum
    let total_cost := (rows.map (fun r => coerceNum r.cost)).sum
    .ok { total_revenue := round2 total_revenue
          total_cost := round2 total_cost
          total_profit := round2 (total_revenue - total_cost)
          client_insights := analyze_csv_rows rows }
  else
    let total_cost :=
      ((rows.filter (fun r => r.Cost.isSome)).map (fun r => coerceNum r.Cost)).sum
    .ok { total_revenue := round2 total_cost
          total_cost := round2 total_cost
          total_profit := 0
          client_insights := fallbackInsights rows }

/-- The per-client savings record of `_rightsizing_simulator`. -/
structure SavingsEstimate where
  savings_usd : ℚ
  current_cost : ℚ
  projected_cost : ℚ
deriving DecidableEq

/-- The savings record computed for one qualifying insight inside the
`_rightsizing_simulator` loop. -/
def mkEstimate (c : ClientInsight) (recoverable_factor : ℚ) : SavingsEstimate :=
  let cost := c.cost
  let waste := c.license_waste_pct / 100
  let savings := max 0 (cost * waste * recoverable_factor)
  { savings_usd := round2 savings
    current_cost := round2 cost
    projected_cost := round2 (max 0 (cost - savings)) }

/-- Models `out[key] = value` on a Python dict kept as an
insertion-ordered association list: an existing key keeps its position
and gets the new value, a new key is appended. -/
def dictInsert (k : String) (v : α) : List (String × α) → List (String × α)
  | [] => [(k, v)]
  | (k', v') :: rest =>
    if k' = k then (k, v) :: rest else (k', v') :: dictInsert k v rest

/-- The `for c in ar.client_insights` loop of `_rightsizing_simulator`:
insights with `cost <= 0 or waste_pct <= 0` are skipped, the others are
written into the dict keyed by client name. -/
def simAux (rf : ℚ) (out : List (String × SavingsEstimate)) :
    List ClientInsight → List (String × SavingsEstimate)
  | [] => out
  | c :: rest =>
    if c.cost ≤ 0 ∨ c.license_waste_pct / 100 ≤ 0 then simAux rf out rest
    else simAux rf (dictInsert c.client (mkEstimate c rf) out) rest

/-- Embeds `_rightsizing_simulator` of `app.py` (the default
`recoverable_factor` at the call site is 0.8). -/
def rightsizing_simulator (insights : List ClientInsight) (rf : ℚ) :
    List (String × SavingsEstimate) :=
  simAux rf [] insights

/-- Embeds `sum(v.get("savings_usd", 0.0) for v in sims.values())` from
`get_benchmarks` in `app.py` (line 1520). -/
def potential_savings (insights : List ClientInsight) (rf : ℚ) : ℚ :=
  ((rightsizing_simulator insights rf).map (fun kv => kv.2.savings_usd)).sum

/-- One alert row produced by `_compute_alerts`. -/
structure AlertItem where
  client : String
  budget : ℚ
  spend : ℚ
  pct : ℚ
  status : String
deriving DecidableEq

/-- Embeds `_compute_alerts` of `app.py`: insights whose client has no
budget entry, or a budget `<= 0`, are skipped; the rest get an alert row
with `pct` stored as `round(pct * 100.0, 1)`. -/
def compute_alerts : List ClientInsight → List (String × ℚ) → ℚ → ℚ → List AlertItem
  | [], _, _, _ => []
  | c :: rest, budgets, warn_pct, breach_pct =>
    let b := (budgets.lookup c.client).getD 0
    if b ≤ 0 then compute_alerts rest budgets warn_pct breach_pct
    else
      let spend := c.cost
      let pct := if 0 < b then spend / b else 0
      let status :=
        if breach_pct ≤ pct then "breach"
        else if warn_pct ≤ pct then "warn"
        else "ok"
      { client := c.client, budget := b, spend := spend
        pct := round1 (pct * 100), status := status } ::
        compute_alerts rest budgets warn_pct breach_pct

/-- Embeds `_weighted_avg_waste` of `app.py`: a fold accumulating
`(total_cost, weighted)` over insights with positive cost, then the
quotient, with the two early `return 0.0` cases. -/
def weighted_avg_waste (clients : List ClientInsight) : ℚ :=
  if clients.isEmpty then 0
  else
    let acc := clients.foldl
      (fun (acc : ℚ × ℚ) c =>
        if 0 < c.cost then (acc.1 + c.cost, acc.2 + c.cost * c.license_waste_pct)
        else acc)
      (0, 0)
    if acc.1 ≤ 0 then 0 else acc.2 / acc.1

/-- The simulator's per-insight guard: the insight is written into the
dict exactly when `simKeep` holds for its name. -/
def simKeep (n : String) (c : ClientInsight) : Bool :=
  c.client == n && !(decide (c.cost ≤ 0) || decide (c.license_waste_pct / 100 ≤ 0))

/-- The last insight of the list with the given client name that passes
the simulator's guard (positive cost and positive waste): the insight
whose dict write survives the overwrites. -/
def lastHit (n : String) (l : List ClientInsight) : Option ClientInsight :=
  l.reverse.find? (simKeep n)

/-- A row of the billing schema, for concrete inputs. -/
def billingRow (client revenue cost licenses_used licenses_purchased : Option String) : Row :=
  { client := client, revenue := revenue, cost := cost
    licenses_used := licenses_used, licenses_purchased := licenses_purchased }

/-- A row of the cost-only schema, for concrete inputs. -/
def costRow (c service : Option String) : Row :=
  { Cost := c, Service := service }

/-- Modelled from the spec's words, for comparison with `insightOfRow`
only: the variant of the per-row calculation in which all four numeric
fields are coerced independently per field (each unparsable field
defaults to 0.0 on its own, leaving the others intact), as claim C8
describes. The source instead coerces the two license fields in one
try-block. -/
def insightOfRowIndep (r : Row) : ClientInsight :=
  let revenue := coerceNum r.revenue
  let cost := coerceNum r.cost
  let licenses_used := coerceNum r.licenses_used
  let licenses_purchased := coerceNum r.licenses_purchased
  let margin := round2 (revenue - cost)
  let waste :=
    if 0 < licenses_purchased then
      max 0 ((licenses_purchased - licenses_used) / licenses_purchased * 100)
    else 0
  let health :=
    if margin < 0 then "At Risk"
    else if 30 < waste then "Inefficient"
    else "Healthy"
  { client := clientOf r
    revenue := round2 revenue
    cost := round2 cost
    margin := margin
    license_waste_pct := round1 waste
    health := health }

/-- Modelled from the spec's words of claim C4, for the amended claim:
the alert row an insight with a positive budget receives, with `pct`
rounded to 1 decimal. -/
def alertOf (budgets : List (String × ℚ)) (warn_pct breach_pct : ℚ)
    (c : ClientInsight) : AlertItem :=
  let b := (budgets.lookup c.client).getD 0
  let pct := if 0 < b then c.cost / b else 0
  { client := c.client, budget := b, spend := c.cost
    pct := round1 (pct * 100)
    status :=
      if breach_pct ≤ pct then "breach"
      else if warn_pct ≤ pct then "warn"
      else "ok" }

/-- The simp set that evaluates the embedded program on concrete rows. -/
theorem round2_eq_floor (q : ℚ) : round2 q = (⌊q * 100 + 1 / 2⌋ : ℤ) / 100 := by
  rw [round2, round_eq]

/-- Unfolding of 1-decimal rounding to a floor, for concrete evaluation. -/
theorem round1_eq_floor (q : ℚ) : round1 q = (⌊q * 10 + 1 / 2⌋ : ℤ) / 10 := by
  rw [round1, round_eq]

/-- C1 (counterexample): the row with 6996 of 10000 licenses used has an
unrounded waste of 30.04%, so the code tags it "Inefficient", yet the
insight's stored `license_waste_pct` field is the rounded 30.0, which is
not `> 30`, and its margin is 0: the claimed iff over the output fields
fails. -/
theorem c1_health_counterexample :
    (insightOfRow (billingRow none none none (some "6996") (some "10000"))).health
        = "Inefficient" ∧
    ¬ 30 < (insightOfRow (billingRow none none none (some "6996") (some "10000"))).license_waste_pct ∧
    ¬ (insightOfRow (billingRow none none none (some "6996") (some "10000"))).margin < 0 := by
  have h : insightOfRow (billingRow none none none (some "6996") (some "10000")) =
      { client := "Unknown", revenue := 0, cost := 0, margin := 0,
        license_waste_pct := 30, health := "Inefficient" } := by
    simp [insightOfRow, billingRow, rawWaste, licensePair, parseField, parseDecimal,
      digitsVal, coerceNum, clientOf, pyStrip, truthyStr, round2, round1, round_eq]
    all_goals norm_num
  rw [h]
  norm_num

/-- C1 (amended): for every input row, the produced insight's health is
"At Risk" iff its margin field is negative; otherwise it is
"Inefficient" iff the PRE-ROUNDING license-waste percentage of the row
exceeds 30 (the code branches on the unrounded value, not on the stored
1-decimal field), and "Healthy" otherwise — three mutually exclusive,
exhaustive categories. -/
theorem c1_health_amended (r : Row) :
    ((insightOfRow r).health = "At Risk" ∨ (insightOfRow r).health = "Inefficient" ∨
      (insightOfRow r).health = "Healthy") ∧
    ((insightOfRow r).health = "At Risk" ↔ (insightOfRow r).margin < 0) ∧
    ((insightOfRow r).health = "Inefficient" ↔
      (¬ (insightOfRow r).margin < 0 ∧ 30 < rawWaste r)) ∧
    ((insightOfRow r).health = "Healthy" ↔
      (¬ (insightOfRow r).margin < 0 ∧ rawWaste r ≤ 30)) := by
  unfold insightOfRow
  by_cases h1 : round2 (coerceNum r.revenue - coerceNum r.cost) < 0 <;>
    by_cases h2 : 30 < rawWaste r <;>
      simp [h1, h2] <;> exact not_lt.mp h2

/-- C2 (confirmed): `analyze_csv_rows` yields exactly one insight per
input row (the output is a permutation of the per-row insights, so rows
with repeated client names stay separate and are never merged) and the
output is sorted non-decreasing by margin. -/
theorem c2_one_insight_per_row_sorted (rows : List Row) :
    (analyze_csv_rows rows).length = rows.length ∧
    (analyze_csv_rows rows).Perm (rows.map insightOfRow) ∧
    (analyze_csv_rows rows).Pairwise (fun a b => a.margin ≤ b.margin) := by
  refine ⟨?_, List.mergeSort_perm _ _, ?_⟩
  · exact ((List.mergeSort_perm _ _).length_eq).trans (List.length_map _ _)
  · have h := @List.sorted_mergeSort ClientInsight
      (fun a b : ClientInsight => decide (a.margin ≤ b.margin))
      (fun a b c hab hbc => by
        simp only [decide_eq_true_eq] at *
        exact le_trans hab hbc)
      (fun a b => by
        simp only [Bool.or_eq_true, decide_eq_true_eq]
        exact le_total _ _)
      (rows.map insightOfRow)
    exact h.imp (fun hab => by simpa using hab)

/-- The accumulating fold of `_weighted_avg_waste` computes the pair of
filtered sums. -/
theorem weighted_avg_foldl (l : List ClientInsight) (a w : ℚ) :
    l.foldl
      (fun (acc : ℚ × ℚ) c =>
        if 0 < c.cost then (acc.1 + c.cost, acc.2 + c.cost * c.license_waste_pct)
        else acc)
      (a, w) =
    (a + ((l.filter (fun c => 0 < c.cost)).map (fun c => c.cost)).sum,
     w + ((l.filter (fun c => 0 < c.cost)).map
            (fun c => c.cost * c.license_waste_pct)).sum) := by
  induction l generalizing a w with
  | nil => simp
  | cons c rest ih =>
    by_cases h : 0 < c.cost <;> simp [h, ih] <;> ring_nf <;> constructor <;> ring

/-- C5 (confirmed): `_weighted_avg_waste` equals the cost-weighted
average Σ(cost·waste)/Σ(cost) over exactly the insights with positive
cost, and equals 0 when the list is empty or every insight has
non-positive cost. -/
theorem c5_weighted_avg_waste (clients : List ClientInsight) :
    (weighted_avg_waste clients =
      if (clients.filter (fun c => 0 < c.cost)).isEmpty then 0
      else ((clients.filter (fun c => 0 < c.cost)).map
              (fun c => c.cost * c.license_waste_pct)).sum /
           ((clients.filter (fun c => 0 < c.cost)).map (fun c => c.cost)).sum) ∧
    ((∀ c ∈ clients, c.cost ≤ 0) → weighted_avg_waste clients = 0) := by
  have hmain : weighted_avg_waste clients =
      if (clients.filter (fun c => 0 < c.cost)).isEmpty then 0
      else ((clients.filter (fun c => 0 < c.cost)).map
              (fun c => c.cost * c.license_waste_pct)).sum /
           ((clients.filter (fun c => 0 < c.cost)).map (fun c => c.cost)).sum := by
    unfold weighted_avg_waste
    rw [weighted_avg_foldl]
    by_cases hfe : (clients.filter (fun c => 0 < c.cost)).isEmpty
    · rcases List.isEmpty_iff.mp hfe with hnil
      simp [hfe, hnil]
    · have hne : clients.filter (fun c => 0 < c.cost) ≠ [] := by
        simpa [List.isEmpty_iff] using hfe
      have hpos : 0 < ((clients.filter (fun c => 0 < c.cost)).map
          (fun c => c.cost)).sum := by
        apply List.sum_pos
        · intro x hx
          rcases List.mem_map.mp hx with ⟨c, hc, rfl⟩
          exact of_decide_eq_true (List.mem_filter.mp hc).2
        · simpa using hne
      have hcne : ¬ clients.isEmpty := by
        cases clients with
        | nil => simp at hne
        | cons c rest => simp
      simp [hcne, hfe, not_le.mpr hpos]
  refine ⟨hmain, fun hall => ?_⟩
  have hfe : (clients.filter (fun c => 0 < c.cost)).isEmpty := by
    rw [List.isEmpty_iff, List.filter_eq_nil_iff]
    intro c hc
    simpa using not_lt.mpr (hall c hc)
  rw [hmain, if_pos hfe]

/-- C5 witness: a single-client list with negative cost yields 0. -/
theorem c5_witness :
    weighted_avg_waste [⟨"A", 0, -1, 0, 0, "Healthy"⟩] = 0 :=
  (c5_weighted_avg_waste [⟨"A", 0, -1, 0, 0, "Healthy"⟩]).2
    (by intro c hc; simp at hc; rw [hc]; norm_num)

/-- C4 (counterexample): with budget 3 and spend 1 the stored `pct`
field is `round(100/3, 1) = 33.3`, not the exact `spend/budget*100 =
100/3`: the claim's `pct = spend/budget*100` fails on the emitted
entry. -/
theorem c4_pct_counterexample :
    compute_alerts [⟨"A", 0, 1, 0, 0, "Healthy"⟩] [("A", 3)] (9/10) 1 =
      [⟨"A", 3, 1, 333/10, "ok"⟩] ∧
    (333/10 : ℚ) ≠ 1 / 3 * 100 := by
  constructor
  · simp [compute_alerts, List.lookup, round1, round_eq]
    norm_num
  · norm_num

/-- C4 (amended): the Budget/Alert Evaluator emits one entry exactly for
those insights whose client has a budget entry `> 0` (clients absent
from the budget map or with budget `≤ 0` produce no entry at all), and
each emitted entry has spend = the insight's cost, `pct` =
spend/budget*100 ROUNDED TO 1 DECIMAL, and status "breach" when
spend/budget ≥ breach threshold, else "warn" when ≥ warn threshold, else
"ok" (the threshold tests use the unrounded ratio). -/
theorem c4_alerts_amended (insights : List ClientInsight)
    (budgets : List (String × ℚ)) (warn breach : ℚ) :
    compute_alerts insights budgets warn breach =
      (insights.filter (fun c => 0 < (budgets.lookup c.client).getD 0)).map
        (alertOf budgets warn breach) ∧
    ∀ c : ClientInsight, 0 < (budgets.lookup c.client).getD 0 →
      (alertOf budgets warn breach c).client = c.client ∧
      (alertOf budgets warn breach c).budget = (budgets.lookup c.client).getD 0 ∧
      (alertOf budgets warn breach c).spend = c.cost ∧
      (alertOf budgets warn breach c).pct =
        round1 (c.cost / (budgets.lookup c.client).getD 0 * 100) ∧
      (alertOf budgets warn breach c).status =
        (if breach ≤ c.cost / (budgets.lookup c.client).getD 0 then "breach"
         else if warn ≤ c.cost / (budgets.lookup c.client).getD 0 then "warn"
         else "ok") := by
  constructor
  · induction insights with
    | nil => rfl
    | cons c rest ih =>
      by_cases h : (budgets.lookup c.client).getD 0 ≤ 0
      · simp [compute_alerts, h, not_lt.mpr h, ih]
      · have h' : 0 < (budgets.lookup c.client).getD 0 := not_le.mp h
        simp [compute_alerts, h, h', ih, alertOf]
  · intro c hb
    simp [alertOf, hb]

/-- C4 witness: the spec scenario — budget 100, spend 80, thresholds
0.9/1.0 — yields the single entry with pct 80 and status "ok". -/
theorem c4_witness :
    compute_alerts [⟨"A", 100, 80, 20, 50, "Inefficient"⟩] [("A", 100)] (9/10) 1 =
      [⟨"A", 100, 80, 80, "ok"⟩] := by
  rw [(c4_alerts_amended [⟨"A", 100, 80, 20, 50, "Inefficient"⟩] [("A", 100)]
    (9/10) 1).1]
  have h := (c4_alerts_amended [⟨"A", 100, 80, 20, 50, "Inefficient"⟩] [("A", 100)]
    (9/10) 1).2 ⟨"A", 100, 80, 20, 50, "Inefficient"⟩
    (by simp [List.lookup])
  simp [List.lookup, alertOf, round1, round_eq]
  norm_num

/-- Lookup at the head key. -/
theorem lookup_cons_self {α : Type} (k : String) (v : α)
    (rest : List (String × α)) : List.lookup k ((k, v) :: rest) = some v := by
  simp [List.lookup]

/-- Lookup skips a head cell with a different key. -/
theorem lookup_cons_ne {α : Type} (k n : String) (v : α)
    (rest : List (String × α)) (h : n ≠ k) :
    List.lookup n ((k, v) :: rest) = List.lookup n rest := by
  have hb : (n == k) = false := beq_eq_false_iff_ne.mpr h
  simp [List.lookup, hb]

/-- Looking up the inserted key finds the inserted value. -/
theorem lookup_dictInsert_self {α : Type} (k : String) (v : α)
    (d : List (String × α)) : (dictInsert k v d).lookup k = some v := by
  induction d with
  | nil => simp [dictInsert, List.lookup]
  | cons kv rest ih =>
    obtain ⟨k', v'⟩ := kv
    by_cases h : k' = k
    · subst h
      simp [dictInsert, lookup_cons_self]
    · rw [dictInsert]
      simp only [h, if_false]
      rw [lookup_cons_ne _ _ _ _ (fun e => h e.symm), ih]

/-- Looking up any other key is unaffected by an insert. -/
theorem lookup_dictInsert_ne {α : Type} (k : String) (v : α)
    (d : List (String × α)) (n : String) (h : n ≠ k) :
    (dictInsert k v d).lookup n = d.lookup n := by
  induction d with
  | nil => simp [dictInsert, List.lookup, beq_eq_false_iff_ne.mpr h]
  | cons kv rest ih =>
    obtain ⟨k', v'⟩ := kv
    by_cases h' : k' = k
    · subst h'
      rw [dictInsert]
      simp only [if_true]
      rw [lookup_cons_ne _ _ _ _ h, lookup_cons_ne _ _ _ _ h]
    · rw [dictInsert]
      simp only [h', if_false]
      by_cases hn : n = k'
      · subst hn
        rw [lookup_cons_self, lookup_cons_self]
      · rw [lookup_cons_ne _ _ _ _ hn, lookup_cons_ne _ _ _ _ hn, ih]

/-- Key list of an insert: unchanged when the key exists, appended
otherwise. -/
theorem keys_dictInsert {α : Type} (k : String) (v : α)
    (d : List (String × α)) :
    (dictInsert k v d).map Prod.fst =
      if k ∈ d.map Prod.fst then d.map Prod.fst else d.map Prod.fst ++ [k] := by
  induction d with
  | nil => simp [dictInsert]
  | cons kv rest ih =>
    obtain ⟨k', v'⟩ := kv
    by_cases h : k' = k
    · subst h
      simp [dictInsert]
    · have h' : ¬ k = k' := fun e => h e.symm
      by_cases hm : k ∈ rest.map Prod.fst <;> simp [dictInsert, h, h', hm, ih]

/-- Inserting preserves distinctness of keys. -/
theorem nodup_keys_dictInsert {α : Type} (k : String) (v : α)
    (d : List (String × α)) (h : (d.map Prod.fst).Nodup) :
    ((dictInsert k v d).map Prod.fst).Nodup := by
  rw [keys_dictInsert]
  by_cases hm : k ∈ d.map Prod.fst
  · simpa [hm] using h
  · simp [hm, List.nodup_append, h]

/-- Unfolding `lastHit` over a cons cell: the tail's hit (a later row)
wins, and the head is used only when nothing later matched. -/
theorem lastHit_cons (n : String) (c : ClientInsight) (rest : List ClientInsight) :
    lastHit n (c :: rest) =
      (lastHit n rest).or (if simKeep n c then some c else none) := by
  cases hk : simKeep n c <;>
    simp [lastHit, List.find?_append, hk]

/-- Lookup in the simulator's accumulating loop: the last guarded
insight with the name wins; otherwise the starting dict answers. -/
theorem lookup_simAux (rf : ℚ) (l : List ClientInsight) :
    ∀ (out : List (String × SavingsEstimate)) (n : String),
      (simAux rf out l).lookup n =
        ((lastHit n l).map (fun c => mkEstimate c rf)).or (out.lookup n) := by
  induction l with
  | nil => intro out n; simp [simAux, lastHit]
  | cons c rest ih =>
    intro out n
    by_cases hg : c.cost ≤ 0 ∨ c.license_waste_pct / 100 ≤ 0
    · have hkeep : simKeep n c = false := by
        rw [simKeep]
        have hb : (decide (c.cost ≤ 0) || decide (c.license_waste_pct / 100 ≤ 0)) = true := by
          rcases hg with h | h <;> simp [h]
        rw [hb]
        simp
      rw [simAux]
      simp only [hg, if_true]
      rw [ih, lastHit_cons, hkeep]
      cases lastHit n rest <;> simp
    · have hg' := not_or.mp hg
      have hkeep : simKeep n c = (c.client == n) := by
        rw [simKeep]
        simp [hg'.1, hg'.2]
      rw [simAux]
      simp only [hg, if_false]
      rw [ih, lastHit_cons, hkeep]
      by_cases hn : c.client = n
      · subst hn
        cases hr : lastHit c.client rest <;>
          simp [hr, lookup_dictInsert_self]
      · have : (c.client == n) = false := by simpa using hn
        rw [this]
        cases hr : lastHit n rest <;>
          simp [hr, lookup_dictInsert_ne _ _ _ _ (fun e => hn e.symm)]

/-- Lookup in the rightsizing simulator's output dict is exactly the
savings estimate of the last guarded insight carrying the name. -/
theorem lookup_rightsizing (insights : List ClientInsight) (rf : ℚ) (n : String) :
    (rightsizing_simulator insights rf).lookup n =
      (lastHit n insights).map (fun c => mkEstimate c rf) := by
  rw [rightsizing_simulator, lookup_simAux]
  cases lastHit n insights <;> simp

/-- The simulator output has pairwise-distinct keys. -/
theorem nodup_keys_rightsizing (insights : List ClientInsight) (rf : ℚ) :
    ((rightsizing_simulator insights rf).map Prod.fst).Nodup := by
  rw [rightsizing_simulator]
  have : ∀ out : List (String × SavingsEstimate), (out.map Prod.fst).Nodup →
      ((simAux rf out insights).map Prod.fst).Nodup := by
    induction insights with
    | nil => intro out h; simpa [simAux] using h
    | cons c rest ih =>
      intro out h
      rw [simAux]
      by_cases hg : c.cost ≤ 0 ∨ c.license_waste_pct / 100 ≤ 0
      · simp only [hg, if_true]
        exact ih out h
      · simp only [hg, if_false]
        exact ih _ (nodup_keys_dictInsert _ _ _ h)
  exact this [] (by simp)

/-- In an association list with distinct keys, the sum of one numeric
projection of the values equals the sum over the key list of the
projected lookup. -/
theorem sum_values_eq_sum_over_keys (d : List (String × SavingsEstimate))
    (h : (d.map Prod.fst).Nodup) :
    (d.map (fun kv => kv.2.savings_usd)).sum =
      ((d.map Prod.fst).map
        (fun n => ((d.lookup n).map SavingsEstimate.savings_usd).getD 0)).sum := by
  induction d with
  | nil => simp
  | cons kv rest ih =>
    obtain ⟨k, v⟩ := kv
    simp only [List.map_cons, List.nodup_cons] at h ⊢
    have hrest : ∀ n ∈ rest.map Prod.fst,
        ((List.lookup n ((k, v) :: rest)).map SavingsEstimate.savings_usd).getD 0 =
        ((List.lookup n rest).map SavingsEstimate.savings_usd).getD 0 := by
      intro n hn
      rw [lookup_cons_ne _ _ _ _ (fun e => h.1 (by rw [← e]; exact hn))]
    rw [List.sum_cons, List.sum_cons, lookup_cons_self,
      List.map_congr_left hrest, ih h.2]
    simp

/-- Dividing by 100 preserves positivity. -/
theorem div100_pos_iff (w : ℚ) : 0 < w / 100 ↔ 0 < w := by
  rw [div_pos_iff]
  constructor
  · rintro (⟨h, _⟩ | ⟨_, h⟩)
    · exact h
    · norm_num at h
  · intro h
    exact Or.inl ⟨h, by norm_num⟩

/-- The simulator's guard in propositional form. -/
theorem simKeep_iff (n : String) (c : ClientInsight) :
    simKeep n c = true ↔
      (c.client = n ∧ 0 < c.cost ∧ 0 < c.license_waste_pct) := by
  rw [simKeep]
  simp only [Bool.and_eq_true, beq_iff_eq, Bool.not_eq_true', Bool.or_eq_false_iff,
    decide_eq_false_iff_not, not_le, div100_pos_iff]

/-- C3 (confirmed): for `recoverable_factor` in (0,1], the simulator's
dict has no entry at all under a name exactly when no insight with that
name has positive cost and positive waste, and every present entry comes
from such an insight with savings = cost·(waste/100)·factor,
current = cost and projected = max(0, cost − savings), each rounded to
2 decimals. -/
theorem c3_rightsizing_simulator (insights : List ClientInsight) (rf : ℚ)
    (h0 : 0 < rf) (h1 : rf ≤ 1) :
    (∀ n, (rightsizing_simulator insights rf).lookup n = none ↔
      ∀ c ∈ insights, c.client = n → (c.cost ≤ 0 ∨ c.license_waste_pct ≤ 0)) ∧
    (∀ n e, (rightsizing_simulator insights rf).lookup n = some e →
      ∃ c ∈ insights, c.client = n ∧ 0 < c.cost ∧ 0 < c.license_waste_pct ∧
        e.savings_usd = round2 (c.cost * (c.license_waste_pct / 100) * rf) ∧
        e.current_cost = round2 c.cost ∧
        e.projected_cost =
          round2 (max 0 (c.cost - c.cost * (c.license_waste_pct / 100) * rf))) := by
  constructor
  · intro n
    rw [lookup_rightsizing, Option.map_eq_none', lastHit, List.find?_eq_none]
    constructor
    · intro hnone c hc hcl
      by_contra hcon
      push_neg at hcon
      exact hnone c (List.mem_reverse.mpr hc)
        ((simKeep_iff n c).mpr ⟨hcl, hcon.1, hcon.2⟩)
    · intro hall c hc
      rw [simKeep_iff]
      rintro ⟨hcl, hcost, hw⟩
      rcases hall c (List.mem_reverse.mp hc) hcl with h | h
      · exact absurd hcost (not_lt.mpr h)
      · exact absurd hw (not_lt.mpr h)
  · intro n e he
    rw [lookup_rightsizing] at he
    rcases Option.map_eq_some'.mp he with ⟨c, hc, rfl⟩
    have hmem : c ∈ insights := List.mem_reverse.mp (List.mem_of_find?_eq_some hc)
    have hkeep := List.find?_some hc
    rw [simKeep_iff] at hkeep
    obtain ⟨hcl, hcost, hw⟩ := hkeep
    have hpos : 0 < c.cost * (c.license_waste_pct / 100) * rf :=
      mul_pos (mul_pos hcost ((div100_pos_iff _).mpr hw)) h0
    have hmax : max 0 (c.cost * (c.license_waste_pct / 100) * rf) =
        c.cost * (c.license_waste_pct / 100) * rf := max_eq_right hpos.le
    refine ⟨c, hmem, hcl, hcost, hw, ?_, rfl, ?_⟩
    · rw [mkEstimate]
      simp only
      rw [hmax]
    · rw [mkEstimate]
      simp only
      rw [hmax]

/-- C3 witness: a client with positive cost and 50% waste gets the
spec-scenario estimate (savings 32, projected 48 at factor 0.8), and a
name with no qualifying insight is absent. -/
theorem c3_witness :
    (rightsizing_simulator [⟨"A", 100, 80, 20, 50, "Inefficient"⟩] (4/5)).lookup "B"
        = none ∧
    (rightsizing_simulator [⟨"A", 100, 80, 20, 50, "Inefficient"⟩] (4/5)).lookup "A"
        = some ⟨32, 80, 48⟩ := by
  constructor
  · exact ((c3_rightsizing_simulator [⟨"A", 100, 80, 20, 50, "Inefficient"⟩] (4/5)
      (by norm_num) (by norm_num)).1 "B").mpr
      (by
        intro c hc hcl
        simp at hc
        rw [hc] at hcl
        simp at hcl)
  · rw [lookup_rightsizing]
    have : lastHit "A" [(⟨"A", 100, 80, 20, 50, "Inefficient"⟩ : ClientInsight)] =
        some ⟨"A", 100, 80, 20, 50, "Inefficient"⟩ := by
      rw [lastHit]
      simp [simKeep]
    rw [this]
    simp [mkEstimate, round2, round_eq]
    norm_num

/-- C10 (confirmed): the simulator's dict holds at most one entry per
client name (its key list is duplicate-free); under each name the
surviving entry is the estimate of the LAST insight in list order with
that name passing the positive-cost/positive-waste guard (later rows
overwrite earlier ones); and the benchmark's potential savings — the sum
of the dict's `savings_usd` values — equals the sum, over the surviving
names, of exactly those last-writer estimates, so overwritten
duplicates contribute nothing. -/
theorem c10_duplicate_names_last_wins (insights : List ClientInsight) (rf : ℚ) :
    ((rightsizing_simulator insights rf).map Prod.fst).Nodup ∧
    (∀ n, (rightsizing_simulator insights rf).lookup n =
      (lastHit n insights).map (fun c => mkEstimate c rf)) ∧
    potential_savings insights rf =
      (((rightsizing_simulator insights rf).map Prod.fst).map
        (fun n => (((lastHit n insights).map (fun c => mkEstimate c rf)).map
          SavingsEstimate.savings_usd).getD 0)).sum := by
  refine ⟨nodup_keys_rightsizing _ _, lookup_rightsizing _ _, ?_⟩
  rw [potential_savings,
    sum_values_eq_sum_over_keys _ (nodup_keys_rightsizing _ _)]
  congr 1
  apply List.map_congr_left
  intro n _
  rw [lookup_rightsizing]

/-- C6 (confirmed): the analysis fails with the client-visible "No rows
found in CSV." error exactly when the parsed row sequence is empty; that
is the only error, and every non-empty row sequence yields a result (the
embedded computations are total functions: bad values degrade to 0
through `coerceNum` instead of raising). The code's message carries a
trailing period ("No rows found in CSV."). -/
theorem c6_no_rows_only_failure (fieldnames : List String) (rows : List Row) :
    (analyzeText fieldnames rows = .error "No rows found in CSV." ↔ rows = []) ∧
    (∀ msg, analyzeText fieldnames rows = .error msg →
      msg = "No rows found in CSV.") ∧
    (rows ≠ [] → ∃ resp, analyzeText fieldnames rows = .ok resp) := by
  cases rows with
  | nil =>
    refine ⟨by simp [analyzeText], by simp [analyzeText], fun h => absurd rfl h⟩
  | cons r rest =>
    have hok : ∃ resp, analyzeText fieldnames (r :: rest) = .ok resp := by
      rw [analyzeText]
      simp only [List.isEmpty_cons, Bool.false_eq_true, if_false]
      split
      · exact ⟨_, rfl⟩
      · exact ⟨_, rfl⟩
    rcases hok with ⟨resp, hresp⟩
    refine ⟨by simp [hresp], ?_, fun _ => ⟨resp, hresp⟩⟩
    intro msg hmsg
    rw [hresp] at hmsg
    exact absurd hmsg (by simp)

/-- C6 witness: the empty row list errs with the exact message, and a
one-row list analyzes successfully. -/
theorem c6_witness :
    analyzeText ["client"] [] = .error "No rows found in CSV." ∧
    ∃ resp, analyzeText ["client"]
      [billingRow (some "B") (some "50") (some "80") none none] = .ok resp :=
  ⟨(c6_no_rows_only_failure ["client"] []).1.mpr rfl,
   (c6_no_rows_only_failure ["client"]
      [billingRow (some "B") (some "50") (some "80") none none]).2.2 (by simp)⟩

/-- Rounding to 2 decimals is monotone. -/
theorem round2_mono {a b : ℚ} (h : a ≤ b) : round2 a ≤ round2 b := by
  rw [round2, round2]
  have hz : round (a * 100) ≤ round (b * 100) := by
    rw [round_eq, round_eq]
    exact Int.floor_mono (by linarith)
  have hcast : ((round (a * 100) : ℤ) : ℚ) ≤ ((round (b * 100) : ℤ) : ℚ) :=
    Int.cast_le.mpr hz
  linarith

/-- Accumulating lookup at the bumped key. -/
theorem lookup_bump_self (d : List (String × ℚ)) (k : String) (v : ℚ) :
    (bump d k v).lookup k = some ((d.lookup k).getD 0 + v) := by
  induction d with
  | nil => simp [bump, List.lookup]
  | cons kv rest ih =>
    obtain ⟨k', v'⟩ := kv
    by_cases h : k' = k
    · subst h
      simp [bump, lookup_cons_self]
    · rw [bump]
      simp only [h, if_false]
      rw [lookup_cons_ne _ _ _ _ (fun e => h e.symm),
        lookup_cons_ne _ _ _ _ (fun e => h e.symm), ih]

/-- Accumulating at one key leaves other lookups unchanged. -/
theorem lookup_bump_ne (d : List (String × ℚ)) (k : String) (v : ℚ)
    (n : String) (h : n ≠ k) : (bump d k v).lookup n = d.lookup n := by
  induction d with
  | nil => simp [bump, List.lookup, beq_eq_false_iff_ne.mpr h]
  | cons kv rest ih =>
    obtain ⟨k', v'⟩ := kv
    by_cases h' : k' = k
    · subst h'
      rw [bump]
      simp only [if_true]
      rw [lookup_cons_ne _ _ _ _ h, lookup_cons_ne _ _ _ _ h]
    · rw [bump]
      simp only [h', if_false]
      by_cases hn : n = k'
      · subst hn
        rw [lookup_cons_self, lookup_cons_self]
      · rw [lookup_cons_ne _ _ _ _ hn, lookup_cons_ne _ _ _ _ hn, ih]

/-- Key list of a bump: unchanged when the key exists, appended
otherwise. -/
theorem keys_bump (d : List (String × ℚ)) (k : String) (v : ℚ) :
    (bump d k v).map Prod.fst =
      if k ∈ d.map Prod.fst then d.map Prod.fst else d.map Prod.fst ++ [k] := by
  induction d with
  | nil => simp [bump]
  | cons kv rest ih =>
    obtain ⟨k', v'⟩ := kv
    by_cases h : k' = k
    · subst h
      simp [bump]
    · have h' : ¬ k = k' := fun e => h e.symm
      by_cases hm : k ∈ rest.map Prod.fst <;> simp [bump, h, h', hm, ih]

/-- Bumping preserves distinctness of keys. -/
theorem nodup_keys_bump (d : List (String × ℚ)) (k : String) (v : ℚ)
    (h : (d.map Prod.fst).Nodup) : ((bump d k v).map Prod.fst).Nodup := by
  rw [keys_bump]
  by_cases hm : k ∈ d.map Prod.fst
  · simpa [hm] using h
  · simp [hm, List.nodup_append, h]

/-- A successful lookup means the key occurs in the key list. -/
theorem lookup_some_mem_keys {α : Type} (d : List (String × α)) (n : String)
    (v : α) (h : d.lookup n = some v) : n ∈ d.map Prod.fst := by
  induction d with
  | nil => simp [List.lookup] at h
  | cons kv rest ih =>
    obtain ⟨k', v'⟩ := kv
    by_cases hn : n = k'
    · subst hn
      simp
    · rw [lookup_cons_ne _ _ _ _ hn] at h
      simp [ih h]

/-- In an association list with distinct keys, every member cell is what
lookup returns for its key. -/
theorem lookup_of_mem_nodup {α : Type} (d : List (String × α))
    (kv : String × α) (hmem : kv ∈ d) (h : (d.map Prod.fst).Nodup) :
    d.lookup kv.1 = some kv.2 := by
  induction d with
  | nil => simp at hmem
  | cons hd rest ih =>
    obtain ⟨k', v'⟩ := hd
    simp only [List.map_cons, List.nodup_cons] at h
    rcases List.mem_cons.mp hmem with he | hr
    · subst he
      exact lookup_cons_self _ _ _
    · have hne : kv.1 ≠ k' := by
        intro e
        exact h.1 (by rw [← e]; exact List.mem_map.mpr ⟨kv, hr, rfl⟩)
      rw [lookup_cons_ne _ _ _ _ hne]
      exact ih hr h.2

/-- The `by_service` accumulation loop computes, under each name, the
starting value plus the summed coerced `Cost` of the rows grouped under
that name. -/
theorem lookup_byServiceAux (l : List Row) :
    ∀ (d : List (String × ℚ)) (n : String),
      (byServiceAux d l).lookup n =
        if n ∈ l.map svcOf then
          some ((d.lookup n).getD 0 +
            ((l.filter (fun r => svcOf r = n)).map (fun r => coerceNum r.Cost)).sum)
        else d.lookup n := by
  induction l with
  | nil => intro d n; simp [byServiceAux]
  | cons r rest ih =>
    intro d n
    rw [byServiceAux, ih]
    by_cases hsvc : svcOf r = n
    · subst hsvc
      by_cases hmem : svcOf r ∈ rest.map svcOf
      · rw [if_pos hmem, lookup_bump_self,
          if_pos (by simp : svcOf r ∈ (r :: rest).map svcOf),
          List.filter_cons_of_pos (by simp)]
        simp [add_assoc]
      · rw [if_neg hmem, lookup_bump_self,
          if_pos (by simp : svcOf r ∈ (r :: rest).map svcOf),
          List.filter_cons_of_pos (by simp)]
        have hfe : rest.filter (fun r' => decide (svcOf r' = svcOf r)) = [] := by
          rw [List.filter_eq_nil_iff]
          intro r' hr' hp
          exact hmem (List.mem_map.mpr ⟨r', hr', of_decide_eq_true hp⟩)
        rw [hfe]
        simp
    · rw [lookup_bump_ne _ _ _ _ (fun e => hsvc e.symm)]
      have hfil : List.filter (fun r' => decide (svcOf r' = n)) (r :: rest) =
          List.filter (fun r' => decide (svcOf r' = n)) rest :=
        List.filter_cons_of_neg (by simp [hsvc])
      by_cases hmem : n ∈ rest.map svcOf
      · rw [if_pos hmem, if_pos (by simp [hmem] : n ∈ (r :: rest).map svcOf), hfil]
      · rw [if_neg hmem, if_neg ?hnm]
        case hnm =>
          intro hin
          rcases (by simpa using hin : n = svcOf r ∨ ∃ a ∈ rest, svcOf a = n) with
            he | ⟨a, ha, hae⟩
          · exact hsvc he.symm
          · exact hmem (List.mem_map.mpr ⟨a, ha, hae⟩)

/-- The grouped `by_service` dict: present exactly for the labels that
occur, holding the group's summed coerced `Cost`. -/
theorem lookup_byService (rows : List Row) (n : String) :
    (byService rows).lookup n =
      if n ∈ rows.map svcOf then
        some (((rows.filter (fun r => svcOf r = n)).map
          (fun r => coerceNum r.Cost)).sum)
      else none := by
  rw [byService, lookup_byServiceAux]
  by_cases hmem : n ∈ rows.map svcOf <;> simp [hmem, List.lookup]

/-- The `by_service` dict has duplicate-free keys. -/
theorem nodup_keys_byService (rows : List Row) :
    ((byService rows).map Prod.fst).Nodup := by
  rw [byService]
  have : ∀ d : List (String × ℚ), (d.map Prod.fst).Nodup →
      ((byServiceAux d rows).map Prod.fst).Nodup := by
    induction rows with
    | nil => intro d h; simpa [byServiceAux] using h
    | cons r rest ih =>
      intro d h
      rw [byServiceAux]
      exact ih _ (nodup_keys_bump _ _ _ h)
  exact this [] (by simp)

/-- C9 (confirmed): without both `revenue` and `cost` headers
(case-insensitive) the analysis groups rows by their Service/UsageType
label (first non-empty, else "Unknown"), sums the coerced `Cost` per
group into one pseudo-client insight with margin 0, waste 0, health
"Unknown" and revenue = cost = the group sum, one insight per distinct
label, ordered by cost descending, with total_revenue = total_cost and
total_profit = 0; and the two-row EC2 scenario yields exactly the single
pseudo-client (EC2, 15, 15, 0, "Unknown"). -/
theorem c9_cost_only_fallback :
    (∀ (fieldnames : List String) (rows : List Row),
      ¬("revenue" ∈ fieldnames.map pyLower ∧ "cost" ∈ fieldnames.map pyLower) →
      rows ≠ [] →
      ∃ resp, analyzeText fieldnames rows = .ok resp ∧
        resp.total_profit = 0 ∧
        resp.total_revenue = resp.total_cost ∧
        (∀ i ∈ resp.client_insights,
          i.margin = 0 ∧ i.license_waste_pct = 0 ∧ i.health = "Unknown" ∧
            i.revenue = i.cost) ∧
        (resp.client_insights.map ClientInsight.client).Nodup ∧
        resp.client_insights.Pairwise (fun a b => b.cost ≤ a.cost) ∧
        (∀ i ∈ resp.client_insights,
          i.client ∈ rows.map svcOf ∧
          i.cost = round2 (((rows.filter (fun r => svcOf r = i.client)).map
            (fun r => coerceNum r.Cost)).sum)) ∧
        (∀ s ∈ rows.map svcOf, s ∈ resp.client_insights.map ClientInsight.client)) ∧
    analyzeText ["Cost", "Service"]
        [costRow (some "10") (some "EC2"), costRow (some "5") (some "EC2")] =
      .ok ⟨15, 15, 0, [⟨"EC2", 15, 15, 0, 0, "Unknown"⟩]⟩ := by
  constructor
  · intro fieldnames rows hschema hne
    have hie : ¬ rows.isEmpty = true := by
      rw [List.isEmpty_iff]
      exact hne
    have heq : analyzeText fieldnames rows =
        .ok { total_revenue := round2 (((rows.filter (fun r => r.Cost.isSome)).map
                (fun r => coerceNum r.Cost)).sum)
              total_cost := round2 (((rows.filter (fun r => r.Cost.isSome)).map
                (fun r => coerceNum r.Cost)).sum)
              total_profit := 0
              client_insights := fallbackInsights rows } := by
      rw [analyzeText]
      rw [if_neg hie, if_neg hschema]
    refine ⟨_, heq, rfl, rfl, ?_, ?_, ?_, ?_, ?_⟩
    · intro i hi
      rcases List.mem_map.mp hi with ⟨kv, _, rfl⟩
      exact ⟨rfl, rfl, rfl, rfl⟩
    · have hmapeq : (fallbackInsights rows).map ClientInsight.client =
          ((byService rows).mergeSort (fun a b => b.2 ≤ a.2)).map Prod.fst := by
        rw [fallbackInsights, List.map_map]
        rfl
      rw [hmapeq]
      have hperm : ((byService rows).mergeSort (fun a b => b.2 ≤ a.2)).map Prod.fst
          |>.Perm ((byService rows).map Prod.fst) :=
        (List.mergeSort_perm _ _).map Prod.fst
      exact hperm.symm.nodup (nodup_keys_byService rows)
    · rw [fallbackInsights]
      rw [List.pairwise_map]
      have hs := @List.sorted_mergeSort (String × ℚ)
        (fun a b : String × ℚ => decide (b.2 ≤ a.2))
        (fun a b c hab hbc => by
          simp only [decide_eq_true_eq] at *
          exact le_trans hbc hab)
        (fun a b => by
          simp only [Bool.or_eq_true, decide_eq_true_eq]
          exact le_total _ _)
        (byService rows)
      exact hs.imp (fun hab => round2_mono (by simpa using hab))
    · intro i hi
      rcases List.mem_map.mp hi with ⟨kv, hkv, rfl⟩
      have hkvb : kv ∈ byService rows :=
        (List.mergeSort_perm (byService rows) _).mem_iff.mp hkv
      have hlook := lookup_of_mem_nodup _ _ hkvb (nodup_keys_byService rows)
      rw [lookup_byService] at hlook
      by_cases hmem : kv.1 ∈ rows.map svcOf
      · rw [if_pos hmem] at hlook
        refine ⟨hmem, ?_⟩
        simp only [Option.some_inj] at hlook
        simp [← hlook]
      · rw [if_neg hmem] at hlook
        exact absurd hlook (by simp)
    · intro s hs
      have hlook : (byService rows).lookup s =
          some (((rows.filter (fun r => svcOf r = s)).map
            (fun r => coerceNum r.Cost)).sum) := by
        rw [lookup_byService, if_pos hs]
      have hk : s ∈ (byService rows).map Prod.fst :=
        lookup_some_mem_keys _ _ _ hlook
      have hmapeq : (fallbackInsights rows).map ClientInsight.client =
          ((byService rows).mergeSort (fun a b => b.2 ≤ a.2)).map Prod.fst := by
        rw [fallbackInsights, List.map_map]
        rfl
      rw [hmapeq]
      exact (((List.mergeSort_perm (byService rows) _).map Prod.fst).mem_iff).mpr hk
  · simp [analyzeText, costRow, pyLower, fallbackInsights, byService, byServiceAux,
      bump, svcOf, truthyStr, coerceNum, parseField, parseDecimal, digitsVal,
      round2, round_eq]
    all_goals norm_num

/-- C9 witness: the general fallback statement applied to the two-row
EC2 scenario. -/
theorem c9_witness :
    ∃ resp, analyzeText ["Cost", "Service"]
        [costRow (some "10") (some "EC2"), costRow (some "5") (some "EC2")] =
          .ok resp ∧
      resp.total_profit = 0 ∧ resp.total_revenue = resp.total_cost := by
  rcases c9_cost_only_fallback.1 ["Cost", "Service"]
      [costRow (some "10") (some "EC2"), costRow (some "5") (some "EC2")]
      (by simp [pyLower]) (by simp) with ⟨resp, h1, h2, h3, _⟩
  exact ⟨resp, h1, h2, h3⟩

/-- Rounding to 1 decimal is monotone. -/
theorem round1_mono {a b : ℚ} (h : a ≤ b) : round1 a ≤ round1 b := by
  rw [round1, round1]
  have hz : round (a * 10) ≤ round (b * 10) := by
    rw [round_eq, round_eq]
    exact Int.floor_mono (by linarith)
  have hcast : ((round (a * 10) : ℤ) : ℚ) ≤ ((round (b * 10) : ℤ) : ℚ) :=
    Int.cast_le.mpr hz
  linarith

/-- C7 (counterexample): a row with licenses_used "-5" and
licenses_purchased "10" gets license_waste_pct 150, outside [0,100]:
the code clamps the waste percentage below at 0 but not above at 100,
and a negative licenses_used value pushes it past 100. -/
theorem c7_waste_counterexample :
    (insightOfRow (billingRow none none none (some "-5") (some "10"))).license_waste_pct
        = 150 ∧
    ¬ (insightOfRow (billingRow none none none
        (some "-5") (some "10"))).license_waste_pct ≤ 100 := by
  have h : (insightOfRow (billingRow none none none
      (some "-5") (some "10"))).license_waste_pct = 150 := by
    simp [insightOfRow, billingRow, rawWaste, licensePair, parseField, parseDecimal,
      digitsVal, round1, round_eq]
    all_goals norm_num
  exact ⟨h, by rw [h]; norm_num⟩

/-- C7 (amended): for every input row the insight's license_waste_pct is
non-negative, and it lies in [0,100] whenever the coerced licenses_used
value is non-negative (in particular whenever licenses_used is missing,
unparsable, or a non-negative number); only a negative licenses_used
value can push it above 100. -/
theorem c7_waste_bounds (r : Row) :
    0 ≤ (insightOfRow r).license_waste_pct ∧
    (0 ≤ (licensePair r.licenses_used r.licenses_purchased).1 →
      (insightOfRow r).license_waste_pct ≤ 100) := by
  have hraw0 : 0 ≤ rawWaste r := by
    rw [rawWaste]
    split_ifs
    · exact le_max_left _ _
    · exact le_refl _
  have hfield : (insightOfRow r).license_waste_pct = round1 (rawWaste r) := rfl
  constructor
  · rw [hfield]
    have h := round1_mono hraw0
    have hz : round1 0 = 0 := by simp [round1]
    rw [hz] at h
    exact h
  · intro hu
    rw [hfield]
    have hraw100 : rawWaste r ≤ 100 := by
      rw [rawWaste]
      split_ifs with hp
      · apply max_le (by norm_num)
        set u := (licensePair r.licenses_used r.licenses_purchased).1 with hud
        set p := (licensePair r.licenses_used r.licenses_purchased).2 with hpd
        have h1 : (p - u) / p ≤ 1 := (div_le_one hp).mpr (by linarith)
        nlinarith
      · norm_num
    have h := round1_mono hraw100
    have hh : round1 100 = 100 := by
      rw [round1, round_eq]
      norm_num
    rw [hh] at h
    exact h

/-- C7 witness: a row without license columns coerces licenses_used to
0, and its waste stays within [0,100]. -/
theorem c7_witness :
    0 ≤ (licensePair (billingRow none none none none none).licenses_used
          (billingRow none none none none none).licenses_purchased).1 ∧
    (insightOfRow (billingRow none none none none none)).license_waste_pct ≤ 100 := by
  have h0 : 0 ≤ (licensePair (billingRow none none none none none).licenses_used
      (billingRow none none none none none).licenses_purchased).1 := by
    simp [billingRow, licensePair, parseField]
  exact ⟨h0, (c7_waste_bounds (billingRow none none none none none)).2 h0⟩

/-- C8 (counterexample): the row with licenses_used "x" (unparsable) and
licenses_purchased "10" (parsable): the code's single try-block resets
BOTH license fields to 0, so the waste percentage is 0; under the
claimed per-field independent coercion (licenses_used alone defaulting
to 0, licenses_purchased keeping 10) it would be 100. -/
theorem c8_joint_coercion_counterexample :
    (insightOfRow (billingRow none none none (some "x") (some "10"))).license_waste_pct
        = 0 ∧
    (insightOfRowIndep (billingRow none none none
        (some "x") (some "10"))).license_waste_pct = 100 ∧
    insightOfRow (billingRow none none none (some "x") (some "10")) ≠
      insightOfRowIndep (billingRow none none none (some "x") (some "10")) := by
  have h1 : (insightOfRow (billingRow none none none
      (some "x") (some "10"))).license_waste_pct = 0 := by
    simp [insightOfRow, billingRow, rawWaste, licensePair, parseField, parseDecimal,
      digitsVal, round1, round_eq]
    all_goals norm_num
  have h2 : (insightOfRowIndep (billingRow none none none
      (some "x") (some "10"))).license_waste_pct = 100 := by
    simp [insightOfRowIndep, billingRow, licensePair, parseField, parseDecimal,
      digitsVal, coerceNum, round1, round_eq]
    all_goals norm_num
  refine ⟨h1, h2, fun he => ?_⟩
  have hfe := congrArg ClientInsight.license_waste_pct he
  rw [h1, h2] at hfe
  norm_num at hfe

/-- C8 (amended): revenue and cost are each coerced independently from
their own field alone (missing or unparsable defaults to 0 for that
field without touching the others, and coercion is total, never
raising); the licenses_used and licenses_purchased fields are coerced
JOINTLY in one try-block — when either fails to parse, both default to
0 (making the waste percentage 0) even if the other is parsable, and
when both parse, both keep their parsed values. -/
theorem c8_coercion_amended (r : Row) :
    (insightOfRow r).revenue = round2 (coerceNum r.revenue) ∧
    (insightOfRow r).cost = round2 (coerceNum r.cost) ∧
    ((parseField r.licenses_used).isNone ∨ (parseField r.licenses_purchased).isNone →
      licensePair r.licenses_used r.licenses_purchased = (0, 0) ∧
      (insightOfRow r).license_waste_pct = 0) ∧
    (∀ u p, parseField r.licenses_used = some u →
      parseField r.licenses_purchased = some p →
      licensePair r.licenses_used r.licenses_purchased = (u, p)) := by
  refine ⟨rfl, rfl, ?_, ?_⟩
  · intro h
    have hpair : licensePair r.licenses_used r.licenses_purchased = (0, 0) := by
      rw [licensePair]
      rcases hu : parseField r.licenses_used with _ | u <;>
        rcases hp : parseField r.licenses_purchased with _ | p <;>
          simp_all
    refine ⟨hpair, ?_⟩
    have hw : rawWaste r = 0 := by
      rw [rawWaste, hpair]
      norm_num
    show round1 (rawWaste r) = 0
    rw [hw]
    simp [round1]
  · intro u p hu hp
    rw [licensePair, hu, hp]

/-- C8 witness: with licenses_used "5" and licenses_purchased "x" both
license values default to 0 jointly; with "5" and "10" both parse. -/
theorem c8_witness :
    licensePair (billingRow none none none (some "5") (some "x")).licenses_used
        (billingRow none none none (some "5") (some "x")).licenses_purchased
      = (0, 0) ∧
    licensePair (billingRow none none none (some "5") (some "10")).licenses_used
        (billingRow none none none (some "5") (some "10")).licenses_purchased
      = (5, 10) := by
  constructor
  · exact ((c8_coercion_amended (billingRow none none none
      (some "5") (some "x"))).2.2.1
      (Or.inr (by simp [billingRow, parseField, parseDecimal]))).1
  · exact (c8_coercion_amended (billingRow none none none
      (some "5") (some "10"))).2.2.2 5 10
      (by simp [billingRow, parseField, parseDecimal, digitsVal])
      (by simp [billingRow, parseField, parseDecimal, digitsVal])

end FinOps
